import Mathlib

/-!
Verification of the nunavut Rust-support build step
(`src/nunavut/lang/rust/support/build.rs`).

The program is a Cargo build script.  It reads the immediate entries of
the directory `src/namespaces`, and for every entry that is a directory
it appends a line `pub mod <name>;\n` to an in-memory string; finally it
creates (truncating) the file `src/namespaces/mod.rs` and writes the
accumulated string into it.

The embedding below models the directory listing as a list of iterator
items (each either an I/O error, as produced by the `ReadDir` iterator,
or a directory entry carrying its name and the observable outcome of a
metadata query), and models the run of `main` as a pure function from
that listing, the prior content of the output file, and the outcome of
the final create/write, to a result and the final content of the output
file.
-/

namespace BuildRs

/-- Model of `std::ffi::OsString`: a filesystem name, which either is
valid UTF-8 or is not (carried as raw bytes). -/
inductive OsString
  | utf8 (s : String)
  | nonUtf8 (bytes : List Nat)
deriving DecidableEq

/-- Rust `OsStr::to_str`: `Some` exactly when the name is valid UTF-8. -/
def OsString.toStr : OsString → Option String
  | .utf8 s => some s
  | .nonUtf8 _ => none

/-- The observable outcome of querying an entry's metadata: the entry is
a directory, the entry is not a directory (a plain file, or anything else
whose metadata says "not a directory"), or the metadata cannot be read at
all (permission error, broken symbolic link, ...). -/
inductive Meta
  | dir
  | file
  | unreadable
deriving DecidableEq

/-- Rust `Path::is_dir()`: returns `true` iff the metadata is readable
and reports a directory.  Per the Rust standard library documentation,
if the metadata cannot be accessed this function returns `false`. -/
def Meta.isDir : Meta → Bool
  | .dir => true
  | .file => false
  | .unreadable => false

/-- A directory entry as yielded by `read_dir`: its final path component
(`path.file_name()`, which for a `read_dir` entry is always present) and
the outcome of the metadata query made by `path.is_dir()`. -/
structure DirEntry where
  name : OsString
  meta : Meta
deriving DecidableEq

/-- The outcome of `std::fs::read_dir("src/namespaces")`: an I/O error
(root missing or unreadable), or a listing.  Each item of the listing is
an iterator item: `Except.error ()` models an `Err` yielded by the
`ReadDir` iterator (the code hits it at `entry?`), `Except.ok e` a
successfully read entry. -/
inductive ListingResult
  | ioErr
  | ok (items : List (Except Unit DirEntry))

/-- How a run of the build script fails: `ioError` models an
`std::io::Error` propagated by `?` (from `read_dir`, from `entry?`, or
from `File::create` / `write_all`); `namingPanic` models the panic of
`path.file_name().unwrap().to_str().unwrap()` on a name that is not
valid UTF-8.  (The specification calls the latter condition
`NamingError`.)  Both abort the build step. -/
inductive BuildError
  | ioError
  | namingPanic
deriving DecidableEq

/-- The body of the `for` loop of `main`, run over the remaining
iterator items: builds the string `lib_rs`.  For each item, `entry?`
propagates an iterator error; then `path.is_dir()` decides whether the
entry is retained; for a retained entry `to_str().unwrap()` panics if
the name is not valid UTF-8, and otherwise `pub mod <name>;\n` is
appended. -/
def processEntries : List (Except Unit DirEntry) → Except BuildError String
  | [] => .ok ""
  | .error _ :: _ => .error .ioError
  | .ok e :: rest =>
    if e.meta.isDir then
      match e.name.toStr with
      | none => .error .namingPanic
      | some s => (processEntries rest).map (fun acc => "pub mod " ++ s ++ ";\n" ++ acc)
    else
      processEntries rest

/-- The outcome of the final `File::create` / `write_all` pair:
it succeeds, `File::create` fails (file untouched), or the file is
created (truncated) and `write_all` fails after writing `n` characters
of the content. -/
inductive WriteOutcome
  | success
  | createFail
  | writeFail (n : Nat)
deriving DecidableEq

/-- One run of `main`, as a function of the directory listing, the prior
content of `src/namespaces/mod.rs` (`none` = absent), and the outcome of
the final create/write.  Returns the result of `main` together with the
final content of the output file.  The file is only created after the
whole loop has finished, so any failure during listing or iteration
leaves it at its prior state. -/
def run (listing : ListingResult) (prior : Option String) (w : WriteOutcome) :
    Except BuildError Unit × Option String :=
  match listing with
  | .ioErr => (.error .ioError, prior)
  | .ok items =>
    match processEntries items with
    | .error e => (.error e, prior)
    | .ok content =>
      match w with
      | .createFail => (.error .ioError, prior)
      | .writeFail n => (.error .ioError, some (String.mk (content.data.take n)))
      | .success => (.ok (), some content)

/-- The fixed path of the output file written by the build script. -/
def outputPath : String := "src/namespaces/mod.rs"

/-- A run of `main` acting on a whole file-system view (a map from paths
to file contents): the only file the script writes is `outputPath`. -/
def runFs (listing : ListingResult) (fs : String → Option String) (w : WriteOutcome) :
    Except BuildError Unit × (String → Option String) :=
  let r := run listing (fs outputPath) w
  (r.1, fun p => if p = outputPath then r.2 else fs p)

/-- The generated line for one namespace, exactly as formatted by the
source: `format!("pub mod {};\n", namespace)`. -/
def declLine (s : String) : String := "pub mod " ++ s ++ ";\n"

/-- The namespace names retained from a listing, in enumeration order:
the names of the entries that are directories (skipping any whose name
is not decodable — under a successful run there are none). -/
def dirNames : List (Except Unit DirEntry) → List String
  | [] => []
  | .error _ :: rest => dirNames rest
  | .ok e :: rest =>
    if e.meta.isDir then
      match e.name.toStr with
      | some s => s :: dirNames rest
      | none => dirNames rest
    else
      dirNames rest

/-- Concatenation of the generated lines for a list of namespace
names. -/
def renderLines : List String → String
  | [] => ""
  | s :: rest => declLine s ++ renderLines rest

/-- The number of items of a listing that are (readable) directory
entries, i.e. the number of immediate subdirectories observed. -/
def numSubdirs : List (Except Unit DirEntry) → Nat
  | [] => 0
  | .error _ :: rest => numSubdirs rest
  | .ok e :: rest => (if e.meta.isDir then 1 else 0) + numSubdirs rest

/-! ### Structural lemmas about the loop -/

theorem processEntries_ok_eq (items : List (Except Unit DirEntry)) :
    ∀ c : String, processEntries items = .ok c → c = renderLines (dirNames items) := by
  induction items with
  | nil =>
    intro c h
    simp only [processEntries, Except.ok.injEq] at h
    simp [dirNames, renderLines, ← h]
  | cons it rest ih =>
    intro c h
    cases it with
    | error u => simp [processEntries] at h
    | ok e =>
      cases hd : e.meta.isDir with
      | false =>
        simp only [processEntries, hd] at h
        simp only [dirNames, hd]
        simpa using ih c h
      | true =>
        cases hn : e.name.toStr with
        | none => simp [processEntries, hd, hn] at h
        | some s =>
          simp only [processEntries, hd, hn, if_true] at h
          cases hr : processEntries rest with
          | error e2 => simp [hr, Except.map] at h
          | ok c2 =>
            simp only [hr, Except.map, Except.ok.injEq] at h
            simp only [dirNames, hd, hn, if_true, renderLines, declLine]
            rw [← h, ← ih c2 hr]

theorem dirNames_length (items : List (Except Unit DirEntry)) :
    ∀ c : String, processEntries items = .ok c →
      (dirNames items).length = numSubdirs items := by
  induction items with
  | nil => intro c h; simp [dirNames, numSubdirs]
  | cons it rest ih =>
    intro c h
    cases it with
    | error u => simp [processEntries] at h
    | ok e =>
      cases hd : e.meta.isDir with
      | false =>
        simp only [processEntries, hd] at h
        simp only [dirNames, numSubdirs, hd]
        simpa using ih c h
      | true =>
        cases hn : e.name.toStr with
        | none => simp [processEntries, hd, hn] at h
        | some s =>
          simp only [processEntries, hd, hn, if_true] at h
          cases hr : processEntries rest with
          | error e2 => simp [hr, Except.map] at h
          | ok c2 =>
            simp only [dirNames, numSubdirs, hd, hn, if_true, List.length_cons]
            rw [ih c2 hr]
            omega

theorem processEntries_append (l1 : List (Except Unit DirEntry)) :
    ∀ c : String, processEntries l1 = .ok c →
      ∀ l2, processEntries (l1 ++ l2) =
        (processEntries l2).map (fun t => c ++ t) := by
  induction l1 with
  | nil =>
    intro c h l2
    simp only [processEntries, Except.ok.injEq] at h
    cases hr : processEntries l2 with
    | error e2 => simp [hr, Except.map]
    | ok t => simp [hr, Except.map, ← h, String.empty_append]
  | cons it rest ih =>
    intro c h l2
    cases it with
    | error u => simp [processEntries] at h
    | ok e =>
      cases hd : e.meta.isDir with
      | false =>
        simp only [processEntries, hd] at h
        simp only [List.cons_append, processEntries, hd]
        simpa using ih c h l2
      | true =>
        cases hn : e.name.toStr with
        | none => simp [processEntries, hd, hn] at h
        | some s =>
          simp only [processEntries, hd, hn, if_true] at h
          cases hr : processEntries rest with
          | error e2 => simp [hr, Except.map] at h
          | ok c2 =>
            simp only [hr, Except.map, Except.ok.injEq] at h
            simp only [List.cons_append, processEntries, hd, hn, if_true, List.append_eq]
            rw [ih c2 hr l2]
            cases processEntries l2 with
            | error e3 => simp [Except.map]
            | ok t => simp [Except.map, ← h, String.append_assoc]

theorem processEntries_skip (e : DirEntry) (hd : e.meta.isDir = false)
    (l1 : List (Except Unit DirEntry)) :
    ∀ l2, processEntries (l1 ++ .ok e :: l2) = processEntries (l1 ++ l2) := by
  induction l1 with
  | nil => intro l2; simp [processEntries, hd]
  | cons it rest ih =>
    intro l2
    cases it with
    | error u => simp [processEntries]
    | ok e2 =>
      cases hd2 : e2.meta.isDir with
      | false => simp only [List.cons_append, processEntries, hd2]; exact ih l2
      | true =>
        cases hn : e2.name.toStr with
        | none => simp [processEntries, hd2, hn]
        | some s =>
          simp only [List.cons_append, processEntries, hd2, hn, if_true, List.append_eq]
          rw [ih l2]

theorem dirNames_mid (s : String) (m : Meta) (hm : m.isDir = true)
    (l1 : List (Except Unit DirEntry)) :
    ∀ l2, dirNames (l1 ++ .ok ⟨.utf8 s, m⟩ :: l2) = dirNames l1 ++ s :: dirNames l2 := by
  induction l1 with
  | nil => intro l2; simp [dirNames, hm, OsString.toStr]
  | cons it rest ih =>
    intro l2
    cases it with
    | error u => simp only [List.cons_append, dirNames]; exact ih l2
    | ok e =>
      cases hd : e.meta.isDir with
      | false => simp only [List.cons_append, dirNames, hd]; exact ih l2
      | true =>
        cases hn : e.name.toStr with
        | none => simp only [List.cons_append, dirNames, hd, hn, if_true]; exact ih l2
        | some s2 =>
          simp only [List.cons_append, dirNames, hd, hn, if_true, List.append_eq]
          rw [ih l2]

theorem renderLines_append (l1 l2 : List String) :
    renderLines (l1 ++ l2) = renderLines l1 ++ renderLines l2 := by
  induction l1 with
  | nil => simp [renderLines, String.empty_append]
  | cons s rest ih =>
    simp only [List.cons_append, renderLines, List.append_eq]
    rw [ih, String.append_assoc]

/-! ### Claim theorems -/

/-- C1: on a successful run, the content of the output file is exactly the
concatenation, in enumeration order of the listing, of one generated line
(`pub mod <name>;\n`) per retained namespace, for every listing and every
prior content of the output file — no stale content survives. -/
theorem run_output_is_concat (items : List (Except Unit DirEntry))
    (prior : Option String) (w : WriteOutcome)
    (h : (run (.ok items) prior w).1 = .ok ()) :
    (run (.ok items) prior w).2 = some (renderLines (dirNames items)) := by
  cases hp : processEntries items with
  | error e => simp [run, hp] at h
  | ok c =>
    cases w with
    | createFail => simp [run, hp] at h
    | writeFail n => simp [run, hp] at h
    | success =>
      simp only [run, hp]
      rw [processEntries_ok_eq items c hp]

/-- C1 witness: a run over a listing with two subdirectories and one plain
file, starting from a stale output file, yields exactly the two generated
lines. -/
theorem run_output_is_concat_witness :
    (run (.ok [.ok ⟨.utf8 "alpha", .dir⟩, .ok ⟨.utf8 "README.txt", .file⟩,
      .ok ⟨.utf8 "beta", .dir⟩]) (some "stale content") .success).2 =
      some "pub mod alpha;\npub mod beta;\n" := by
  have h := run_output_is_concat
    [.ok ⟨.utf8 "alpha", .dir⟩, .ok ⟨.utf8 "README.txt", .file⟩,
      .ok ⟨.utf8 "beta", .dir⟩] (some "stale content") .success (by rfl)
  exact h.trans (by decide)

/-- C2: on a successful run the output is the concatenation of exactly
`numSubdirs items` generated lines, one per immediate subdirectory
observed in the listing; in particular zero subdirectories give an empty
output file. -/
theorem run_decl_count (items : List (Except Unit DirEntry))
    (prior : Option String) (w : WriteOutcome)
    (h : (run (.ok items) prior w).1 = .ok ()) :
    (run (.ok items) prior w).2 = some (renderLines (dirNames items)) ∧
    (dirNames items).length = numSubdirs items ∧
    (numSubdirs items = 0 → (run (.ok items) prior w).2 = some "") := by
  cases hp : processEntries items with
  | error e => simp [run, hp] at h
  | ok c =>
    cases w with
    | createFail => simp [run, hp] at h
    | writeFail n => simp [run, hp] at h
    | success =>
      have hlen := dirNames_length items c hp
      have hcontent := processEntries_ok_eq items c hp
      refine ⟨by simp only [run, hp]; rw [hcontent], hlen, ?_⟩
      intro h0
      have hnil : dirNames items = [] := by
        have := hlen.trans h0
        exact List.eq_nil_of_length_eq_zero this
      simp only [run, hp]
      rw [hcontent, hnil]
      rfl

/-- C2 witness: a listing with two subdirectories and one plain file gives
a two-line output, and the empty listing gives an empty output. -/
theorem run_decl_count_witness :
    (run (.ok [.ok ⟨.utf8 "a", .dir⟩, .ok ⟨.utf8 "f.txt", .file⟩,
      .ok ⟨.utf8 "b", .dir⟩]) none .success).2 =
      some (renderLines (dirNames [.ok ⟨.utf8 "a", .dir⟩,
        .ok ⟨.utf8 "f.txt", .file⟩, .ok ⟨.utf8 "b", .dir⟩])) ∧
    (run (.ok ([] : List (Except Unit DirEntry))) none .success).2 = some "" := by
  refine ⟨?_, ?_⟩
  · exact (run_decl_count [.ok ⟨.utf8 "a", .dir⟩, .ok ⟨.utf8 "f.txt", .file⟩,
      .ok ⟨.utf8 "b", .dir⟩] none .success (by rfl)).1
  · exact (run_decl_count [] none .success (by rfl)).2.2 (by rfl)

/-- C3 counterexample: an entry whose metadata cannot be read does NOT
make the step fail with an `IoError`; `path.is_dir()` returns `false` for
it, the entry is skipped, and the run succeeds (here producing an empty
output). -/
theorem unreadable_meta_no_failure :
    run (.ok [.ok ⟨.utf8 "x", .unreadable⟩]) (some "old") .success =
      (.ok (), some "") := by
  rfl

/-- C3 amended: an entry whose metadata cannot be read is silently
classified as a non-directory and skipped — the run behaves exactly as if
the entry were absent, for every surrounding listing, prior content and
write outcome. -/
theorem unreadable_meta_skipped (nm : OsString)
    (l1 l2 : List (Except Unit DirEntry)) (prior : Option String) (w : WriteOutcome) :
    run (.ok (l1 ++ .ok ⟨nm, .unreadable⟩ :: l2)) prior w =
      run (.ok (l1 ++ l2)) prior w := by
  have hs := processEntries_skip ⟨nm, .unreadable⟩ rfl l1 l2
  simp only [run, hs]

/-- C4: a directory entry whose name is not valid UTF-8 aborts the run
(the `to_str().unwrap()` panic, the condition the specification calls
`NamingError`): the run's result is the fatal `namingPanic` error and the
output file keeps its prior state, whatever follows the entry in the
listing. -/
theorem nonUtf8_dir_fails (l1 : List (Except Unit DirEntry)) (c : String)
    (h : processEntries l1 = .ok c) (bs : List Nat) (m : Meta) (hm : m.isDir = true)
    (l2 : List (Except Unit DirEntry)) (prior : Option String) (w : WriteOutcome) :
    run (.ok (l1 ++ .ok ⟨.nonUtf8 bs, m⟩ :: l2)) prior w =
      (.error .namingPanic, prior) := by
  have ha := processEntries_append l1 c h (.ok ⟨.nonUtf8 bs, m⟩ :: l2)
  have hb : processEntries (.ok ⟨.nonUtf8 bs, m⟩ :: l2) = .error .namingPanic := by
    simp [processEntries, hm, OsString.toStr]
  rw [hb] at ha
  simp only [Except.map] at ha
  simp only [run, ha]

/-- C4 witness: a single subdirectory with a non-decodable name makes the
run fail with the naming panic, leaving the (absent) output file absent. -/
theorem nonUtf8_dir_fails_witness :
    run (.ok [.ok ⟨.nonUtf8 [255], .dir⟩]) none .success =
      (.error .namingPanic, none) :=
  nonUtf8_dir_fails [] "" (by rfl) [255] .dir (by rfl) [] none .success

/-- C5: an entry that is a plain file contributes nothing: the run behaves
exactly as if the file were absent from the listing, for every name
(including the generated output file's own name `mod.rs`), every
surrounding listing, prior content and write outcome. -/
theorem plain_file_no_decl (nm : OsString) (l1 l2 : List (Except Unit DirEntry))
    (prior : Option String) (w : WriteOutcome) :
    run (.ok (l1 ++ .ok ⟨nm, .file⟩ :: l2)) prior w =
      run (.ok (l1 ++ l2)) prior w := by
  have hs := processEntries_skip ⟨nm, .file⟩ rfl l1 l2
  simp only [run, hs]

/-- C6: the produced output is a deterministic function of the directory
listing alone: if a run succeeds from one prior output-file content, a
run over the same listing from any other prior content also succeeds and
produces the identical output bytes. -/
theorem run_deterministic (l : ListingResult) (p1 p2 : Option String)
    (h : (run l p1 .success).1 = .ok ()) :
    (run l p2 .success).1 = .ok () ∧
    (run l p1 .success).2 = (run l p2 .success).2 := by
  cases l with
  | ioErr => simp [run] at h
  | ok items =>
    cases hp : processEntries items with
    | error e => simp [run, hp] at h
    | ok c => simp [run, hp]

/-- C6 witness: the same one-subdirectory listing produces the same
output from a stale prior content and from no prior file at all. -/
theorem run_deterministic_witness :
    (run (.ok [.ok ⟨.utf8 "ns", .dir⟩]) none .success).1 = .ok () ∧
    (run (.ok [.ok ⟨.utf8 "ns", .dir⟩]) (some "stale") .success).2 =
      (run (.ok [.ok ⟨.utf8 "ns", .dir⟩]) none .success).2 :=
  run_deterministic (.ok [.ok ⟨.utf8 "ns", .dir⟩]) (some "stale") none (by rfl)

/-- C7: if listing the root fails (e.g. the root does not exist), the run
fails with an I/O error and the whole file system is left exactly as it
was — the output file is neither created nor modified, absence included. -/
theorem root_missing_untouched (fs : String → Option String) (w : WriteOutcome) :
    (runFs .ioErr fs w).1 = .error .ioError ∧ (runFs .ioErr fs w).2 = fs := by
  refine ⟨rfl, funext fun p => ?_⟩
  by_cases hp : p = outputPath
  · simp [runFs, run, hp]
  · simp [runFs, run, hp]

/-- C8: a subdirectory whose name is the valid identifier `s` contributes
the declaration `pub mod s;\n` with `s` exactly as it appears on the
filesystem — the output decomposes around that untransformed line. -/
theorem naming_fidelity (s : String) (m : Meta) (hm : m.isDir = true)
    (l1 l2 : List (Except Unit DirEntry)) (prior : Option String) (w : WriteOutcome)
    (h : (run (.ok (l1 ++ .ok ⟨.utf8 s, m⟩ :: l2)) prior w).1 = .ok ()) :
    ∃ a b, (run (.ok (l1 ++ .ok ⟨.utf8 s, m⟩ :: l2)) prior w).2 =
      some (a ++ ("pub mod " ++ s ++ ";\n") ++ b) := by
  cases hp : processEntries (l1 ++ .ok ⟨.utf8 s, m⟩ :: l2) with
  | error e => simp [run, hp] at h
  | ok c =>
    cases w with
    | createFail => simp [run, hp] at h
    | writeFail n => simp [run, hp] at h
    | success =>
      refine ⟨renderLines (dirNames l1), renderLines (dirNames l2), ?_⟩
      simp only [run, hp]
      rw [processEntries_ok_eq _ c hp, dirNames_mid s m hm l1 l2,
        renderLines_append]
      simp only [renderLines, declLine, String.append_assoc]

/-- C8 witness: the subdirectory `foo` yields an output decomposing
around the exact line `pub mod foo;\n`. -/
theorem naming_fidelity_witness :
    ∃ a b, (run (.ok [.ok ⟨.utf8 "foo", .dir⟩]) none .success).2 =
      some (a ++ ("pub mod " ++ "foo" ++ ";\n") ++ b) :=
  naming_fidelity "foo" .dir (by rfl) [] [] none .success (by rfl)

/-- C9: frame property of a run over a whole file-system view: no path
other than the fixed output path is ever modified, and the run reads no
file content other than (at most) the output path's — its result and the
final output content are unchanged if every other path's content changes.
The scan itself consumes only the immediate listing of the root (the
`DirEntry` model carries no sub-listing), so no recursion occurs. -/
theorem frame_property (l : ListingResult) (fs : String → Option String)
    (w : WriteOutcome) :
    (∀ p, p ≠ outputPath → (runFs l fs w).2 p = fs p) ∧
    (∀ fs2 : String → Option String, fs2 outputPath = fs outputPath →
      (runFs l fs2 w).1 = (runFs l fs w).1 ∧
      (runFs l fs2 w).2 outputPath = (runFs l fs w).2 outputPath) := by
  constructor
  · intro p hp
    simp [runFs, hp]
  · intro fs2 h2
    simp [runFs, h2]

/-- C9 witness: after a run over a one-file file system, a path other
than the output path still holds its old content. -/
theorem frame_property_witness :
    (runFs (.ok [.ok ⟨.utf8 "n", .dir⟩]) (fun _ => some "data") .success).2
      "src/namespaces/n/x.rs" = some "data" :=
  (frame_property (.ok [.ok ⟨.utf8 "n", .dir⟩]) (fun _ => some "data")
    .success).1 "src/namespaces/n/x.rs" (by decide)

/-- C10 (implicit): the output string is accumulated in memory and the
output file is opened only after the scan has finished, so any failure of
the listing or of the iteration leaves the output file exactly at its
prior state (whatever the write stage would have done), and conversely a
run can change the file's state only when the whole scan succeeded — a
partial or truncated output can arise only from the final create/write
itself. -/
theorem scan_failure_leaves_file (l : ListingResult) (prior : Option String)
    (w : WriteOutcome) :
    ((l = .ioErr ∨ ∃ items e, l = .ok items ∧ processEntries items = .error e) →
      (run l prior w).2 = prior) ∧
    ((run l prior w).2 ≠ prior →
      ∃ items c, l = .ok items ∧ processEntries items = .ok c) := by
  cases l with
  | ioErr => exact ⟨fun _ => rfl, fun hne => absurd rfl hne⟩
  | ok items =>
    cases hp : processEntries items with
    | error e =>
      refine ⟨fun _ => by simp [run, hp], fun hne => absurd ?_ hne⟩
      simp [run, hp]
    | ok c =>
      refine ⟨fun hcase => ?_, fun _ => ⟨items, c, rfl, hp⟩⟩
      rcases hcase with hio | ⟨items2, e2, heq, herr⟩
      · exact absurd hio (by simp)
      · cases heq
        rw [hp] at herr
        cases herr

/-- C10 witness: an iteration error (an `Err` yielded by the `ReadDir`
iterator) leaves a pre-existing output file entirely untouched, even
though the write stage, had it been reached, would have truncated it. -/
theorem scan_failure_leaves_file_witness :
    (run (.ok [.error ()]) (some "keep me") (.writeFail 0)).2 = some "keep me" :=
  (scan_failure_leaves_file (.ok [.error ()]) (some "keep me")
    (.writeFail 0)).1 (Or.inr ⟨[.error ()], .ioError, rfl, rfl⟩)

end BuildRs
